import Mathlib

/-
  Shallow embedding of src/campaign_platform/scheduler/action_scheduler.py.

  Instants are modelled as integer minutes since an epoch that falls on a
  Monday at 00:00, so Python weekday() (Monday = 0) becomes
  (t / 1440) mod 7 and the hour of day becomes (t mod 1440) / 60, with
  Euclidean division/modulus (Int.ediv / Int.emod), which agree with
  Python floor division and nonnegative remainder. Calendar dates are
  modelled as integer day numbers (dateOf t = t / 1440), and
  datetime.combine(d, time(h, m)) becomes d * 1440 + h * 60 + m.

  The ambient random source (the random module) is injected as a stream
  s : Nat -> Int; a randint a b call at draw index k is modelled as
  a + (s k).emod (b - a + 1), which ranges over exactly the values
  randint a b can produce as s varies.

  Fallible operations (Python exceptions such as IndexError and
  ZeroDivisionError, and while loops without a termination guarantee,
  which are given explicit fuel) return Option; none models an
  exception or divergence.
-/

namespace CampaignPlatform

def combine (d : Int) (minuteOfDay : Int) : Int := d * 1440 + minuteOfDay

def dateOf (t : Int) : Int := t / 1440

def hourOf (t : Int) : Int := (t % 1440) / 60

def weekday (t : Int) : Int := (t / 1440) % 7

/-- Dataclass ScheduleWindow with its default peak/blocked hours. -/
structure ScheduleWindow where
  start : Int
  endTime : Int
  peak_hours : List Int := [9, 10, 11, 14, 15, 19, 20]
  blocked_hours : List Int := [0, 1, 2, 3, 4, 5, 6, 22, 23]
  timezone_offset : Int := 0
  deriving DecidableEq, Repr

/-- Dataclass ScheduledAction, parametrised by the time representation
(Int minutes for every strategy except the burst strategy, which divides
the platform window by the action count and therefore produces exact
rational minutes). -/
structure ScheduledAction (T : Type) where
  action_id : Int
  action_type : String
  scheduled_start : T
  scheduled_end : T
  priority : Int
  batch_id : Option String := none
  notes : Option String := none
  deriving DecidableEq, Repr

/-- One adjustment of the while loop of ActionScheduler._next_business_hour:
weekend days jump to 09:00 next Monday, other candidates move to 09:00 on
the next calendar day. -/
def nbh_step (t : Int) : Int :=
  if 5 ≤ weekday t then
    combine (dateOf t + (7 - weekday t)) 540
  else
    combine (dateOf t + 1) 540

/-- ActionScheduler._next_business_hour: the while loop, given explicit
fuel; none models divergence of the source loop. -/
def next_business_hour (w : ScheduleWindow) : Nat → Int → Option Int
  | 0, t =>
    if hourOf t ∈ w.blocked_hours ∨ 5 ≤ weekday t then none else some t
  | n + 1, t =>
    if hourOf t ∈ w.blocked_hours ∨ 5 ≤ weekday t then
      next_business_hour w n (nbh_step t)
    else some t

/-- Termination of the _next_business_hour loop from a given candidate. -/
def nbh_terminates (w : ScheduleWindow) (t : Int) : Prop :=
  ∃ n r, next_business_hour w n t = some r

theorem weekday_nonneg (t : Int) : 0 ≤ weekday t := by
  unfold weekday; omega

theorem weekday_lt (t : Int) : weekday t < 7 := by
  unfold weekday; omega

theorem hourOf_nonneg (t : Int) : 0 ≤ hourOf t := by
  unfold hourOf; omega

theorem hourOf_lt (t : Int) : hourOf t < 24 := by
  unfold hourOf; omega

theorem hourOf_combine (d x : Int) (h0 : 0 ≤ x) (h1 : x < 1440) :
    hourOf (combine d x) = x / 60 := by
  unfold hourOf combine; omega

theorem weekday_combine (d x : Int) (h0 : 0 ≤ x) (h1 : x < 1440) :
    weekday (combine d x) = d % 7 := by
  unfold weekday combine; omega

theorem dateOf_combine (d x : Int) (h0 : 0 ≤ x) (h1 : x < 1440) :
    dateOf (combine d x) = d := by
  unfold dateOf combine; omega

theorem lt_combine_next_date (t : Int) : t < combine (dateOf t + 1) 0 := by
  unfold combine dateOf; omega

/-- Every step of the _next_business_hour loop moves strictly forward. -/
theorem nbh_step_forward (t : Int) : t < nbh_step t := by
  unfold nbh_step
  have h1 := weekday_nonneg t
  have h2 := weekday_lt t
  split <;> (unfold combine dateOf weekday at *; omega)

theorem next_business_hour_le (w : ScheduleWindow) :
    ∀ n t r, next_business_hour w n t = some r → t ≤ r := by
  intro n
  induction n with
  | zero =>
    intro t r h
    unfold next_business_hour at h
    split at h
    · exact absurd h (by simp)
    · simp only [Option.some.injEq] at h; omega
  | succ n ih =>
    intro t r h
    unfold next_business_hour at h
    split at h
    · have := ih (nbh_step t) r h
      have := nbh_step_forward t
      omega
    · simp only [Option.some.injEq] at h; omega

theorem next_business_hour_valid (w : ScheduleWindow) :
    ∀ n t r, next_business_hour w n t = some r →
      hourOf r ∉ w.blocked_hours ∧ weekday r < 5 := by
  intro n
  induction n with
  | zero =>
    intro t r h
    unfold next_business_hour at h
    split at h
    · exact absurd h (by simp)
    · simp only [Option.some.injEq] at h
      subst h
      rename_i hcond
      push_neg at hcond
      exact ⟨hcond.1, by omega⟩
  | succ n ih =>
    intro t r h
    unfold next_business_hour at h
    split at h
    · exact ih (nbh_step t) r h
    · simp only [Option.some.injEq] at h
      subst h
      rename_i hcond
      push_neg at hcond
      exact ⟨hcond.1, by omega⟩

theorem next_business_hour_zero (w : ScheduleWindow) (t : Int) :
    next_business_hour w 0 t =
      if hourOf t ∈ w.blocked_hours ∨ 5 ≤ weekday t then none else some t := rfl

theorem next_business_hour_succ (w : ScheduleWindow) (n : Nat) (t : Int) :
    next_business_hour w (n + 1) t =
      if hourOf t ∈ w.blocked_hours ∨ 5 ≤ weekday t then
        next_business_hour w n (nbh_step t)
      else some t := rfl

theorem next_business_hour_exit (w : ScheduleWindow) (n : Nat) (t : Int)
    (h : ¬(hourOf t ∈ w.blocked_hours ∨ 5 ≤ weekday t)) :
    next_business_hour w n t = some t := by
  cases n
  · rw [next_business_hour_zero, if_neg h]
  · rw [next_business_hour_succ, if_neg h]

theorem weekday_eq_dateOf (t : Int) : weekday t = dateOf t % 7 := rfl

theorem hourOf_combine540 (d : Int) : hourOf (combine d 540) = 9 := by
  unfold hourOf combine; omega

/-- A 09:00 candidate on a non-weekend day number passes the loop condition
when hour 9 is not blocked. -/
theorem nbh_cond_false_at_nine (w : ScheduleWindow) (h9 : (9 : Int) ∉ w.blocked_hours)
    (e : Int) (he : e % 7 < 5) :
    ¬(hourOf (combine e 540) ∈ w.blocked_hours ∨ 5 ≤ weekday (combine e 540)) := by
  rw [hourOf_combine540, weekday_combine e 540 (by omega) (by omega)]
  push_neg
  exact ⟨h9, by omega⟩

/-- C2, amended: for every finite candidate instant and every ScheduleWindow
whose blockedHours set does not contain hour 9 (weekend days are Saturday
and Sunday), the BusinessClock advancement terminates, within three loop
iterations, at an instant whose hour is not blocked and whose day of week
is not a weekend day; each loop step moves the candidate to 09:00 on the
next calendar day, or to 09:00 next Monday when the candidate is on a
weekend day. The unamended claim, over arbitrary blockedHours sets, is
refuted by claim_C2_counterexample. -/
theorem claim_C2 (w : ScheduleWindow) (t : Int) (h9 : (9 : Int) ∉ w.blocked_hours) :
    nbh_terminates w t ∧
    (∃ r, next_business_hour w 3 t = some r ∧
        hourOf r ∉ w.blocked_hours ∧ weekday r < 5) ∧
    (weekday t < 5 → nbh_step t = combine (dateOf t + 1) 540) ∧
    (5 ≤ weekday t →
        nbh_step t = combine (dateOf t + (7 - weekday t)) 540 ∧
        weekday (nbh_step t) = 0 ∧ hourOf (nbh_step t) = 9) := by
  have hwd0 := weekday_nonneg t
  have hwd7 := weekday_lt t
  have hstep_wk : weekday t < 5 → nbh_step t = combine (dateOf t + 1) 540 := by
    intro h; unfold nbh_step; rw [if_neg (by omega)]
  have hstep_we : 5 ≤ weekday t →
      nbh_step t = combine (dateOf t + (7 - weekday t)) 540 ∧
      weekday (nbh_step t) = 0 ∧ hourOf (nbh_step t) = 9 := by
    intro h
    have heq : nbh_step t = combine (dateOf t + (7 - weekday t)) 540 := by
      unfold nbh_step; rw [if_pos h]
    refine ⟨heq, ?_, by rw [heq]; exact hourOf_combine540 _⟩
    rw [heq, weekday_combine _ 540 (by omega) (by omega), weekday_eq_dateOf] at *
    omega
  have hex : ∃ r, next_business_hour w 3 t = some r ∧
      hourOf r ∉ w.blocked_hours ∧ weekday r < 5 := by
    by_cases hc : hourOf t ∈ w.blocked_hours ∨ 5 ≤ weekday t
    · have h3 : next_business_hour w 3 t = next_business_hour w 2 (nbh_step t) := by
        rw [show (3 : Nat) = 2 + 1 from rfl, next_business_hour_succ, if_pos hc]
      by_cases hw : 5 ≤ weekday t
      · obtain ⟨heq, hzero, hnine⟩ := hstep_we hw
        refine ⟨nbh_step t, ?_, ?_, by omega⟩
        · rw [h3]
          exact next_business_hour_exit w 2 _ (by rw [hnine] at *; push_neg; exact ⟨by rwa [hnine], by omega⟩)
        · rwa [hnine]
      · push_neg at hw
        have heq := hstep_wk hw
        by_cases h2 : (dateOf t + 1) % 7 < 5
        · refine ⟨combine (dateOf t + 1) 540, ?_, ?_, ?_⟩
          · rw [h3, heq]
            exact next_business_hour_exit w 2 _ (nbh_cond_false_at_nine w h9 _ h2)
          · rw [hourOf_combine540]; exact h9
          · rw [weekday_combine _ 540 (by omega) (by omega)]; omega
        · push_neg at h2
          have hcond1 : hourOf (combine (dateOf t + 1) 540) ∈ w.blocked_hours ∨
              5 ≤ weekday (combine (dateOf t + 1) 540) := by
            right; rw [weekday_combine _ 540 (by omega) (by omega)]; exact h2
          have h2' : next_business_hour w 2 (combine (dateOf t + 1) 540) =
              next_business_hour w 1 (nbh_step (combine (dateOf t + 1) 540)) := by
            rw [show (2 : Nat) = 1 + 1 from rfl, next_business_hour_succ, if_pos hcond1]
          have hwd1 : weekday (combine (dateOf t + 1) 540) = (dateOf t + 1) % 7 :=
            weekday_combine _ 540 (by omega) (by omega)
          have hd1 : dateOf (combine (dateOf t + 1) 540) = dateOf t + 1 :=
            dateOf_combine _ 540 (by omega) (by omega)
          have hstep2 : nbh_step (combine (dateOf t + 1) 540) =
              combine (dateOf t + 1 + (7 - (dateOf t + 1) % 7)) 540 := by
            unfold nbh_step
            rw [if_pos (by rw [hwd1]; exact h2), hwd1, hd1]
          have hmon : (dateOf t + 1 + (7 - (dateOf t + 1) % 7)) % 7 < 5 := by omega
          refine ⟨combine (dateOf t + 1 + (7 - (dateOf t + 1) % 7)) 540, ?_, ?_, ?_⟩
          · rw [h3, heq, h2', hstep2]
            exact next_business_hour_exit w 1 _ (nbh_cond_false_at_nine w h9 _ hmon)
          · rw [hourOf_combine540]; exact h9
          · rw [weekday_combine _ 540 (by omega) (by omega)]; omega
    · exact ⟨t, next_business_hour_exit w 3 t hc, by push_neg at hc; exact hc.1,
        by push_neg at hc; omega⟩
  obtain ⟨r, hr, hv⟩ := hex
  exact ⟨⟨3, r, hr⟩, ⟨r, hr, hv⟩, hstep_wk, hstep_we⟩

/-- A window whose blocked set contains every hour of the day. -/
def all_hours_window : ScheduleWindow :=
  { start := 0, endTime := 10080,
    blocked_hours :=
      [0, 1, 2, 3, 4, 5, 6, 7, 8, 9, 10, 11, 12, 13, 14, 15, 16, 17, 18,
        19, 20, 21, 22, 23] }

/-- C2 counterexample: with every hour blocked (an admissible ScheduleWindow,
since the claim quantifies over any blockedHours set), the
_next_business_hour loop never terminates from candidate 0: every loop
step lands on another 09:00 candidate, which is again blocked. -/
theorem claim_C2_counterexample : ¬ nbh_terminates all_hours_window 0 := by
  have hmem : ∀ s : Int, hourOf s ∈ all_hours_window.blocked_hours := by
    intro s
    have h1 := hourOf_nonneg s
    have h2 := hourOf_lt s
    have hl : all_hours_window.blocked_hours =
        [0, 1, 2, 3, 4, 5, 6, 7, 8, 9, 10, 11, 12, 13, 14, 15, 16, 17, 18,
          19, 20, 21, 22, 23] := rfl
    rw [hl]
    simp only [List.mem_cons, List.not_mem_nil, or_false]
    omega
  have hnone : ∀ n t, next_business_hour all_hours_window n t = none := by
    intro n
    induction n with
    | zero => intro t; rw [next_business_hour_zero, if_pos (Or.inl (hmem t))]
    | succ n ih =>
      intro t
      rw [next_business_hour_succ, if_pos (Or.inl (hmem t))]
      exact ih _
  rintro ⟨n, r, h⟩
  rw [hnone n 0] at h
  exact Option.noConfusion h

/-- Witness for claim_C2 at a concrete window and candidate. -/
theorem claim_C2_witness :
    ((9 : Int) ∉ ({ start := 0, endTime := 10080 } : ScheduleWindow).blocked_hours) ∧
    (nbh_terminates { start := 0, endTime := 10080 } 0 ∧
      (∃ r, next_business_hour { start := 0, endTime := 10080 } 3 0 = some r ∧
          hourOf r ∉ ({ start := 0, endTime := 10080 } : ScheduleWindow).blocked_hours ∧
          weekday r < 5) ∧
      (weekday 0 < 5 → nbh_step 0 = combine (dateOf 0 + 1) 540) ∧
      (5 ≤ weekday 0 →
          nbh_step 0 = combine (dateOf 0 + (7 - weekday 0)) 540 ∧
          weekday (nbh_step 0) = 0 ∧ hourOf (nbh_step 0) = 9)) :=
  ⟨by decide, claim_C2 { start := 0, endTime := 10080 } 0 (by decide)⟩

/-- One Python dict update d[k] = d.get(k, 0) + 1, on an insertion-ordered
association list: an existing key is incremented in place, a new key is
appended at the end. -/
def bump {α : Type} [DecidableEq α] : List (α × Nat) → α → List (α × Nat)
  | [], key => [(key, 1)]
  | (k, v) :: rest, key =>
    if k = key then (k, v + 1) :: rest else (k, v) :: bump rest key

/-- Python max(d, key=d.get): the first key attaining the maximal value. -/
def argmax_first {α : Type} : List (α × Nat) → Option (α × Nat)
  | [] => none
  | x :: rest => some (rest.foldl (fun best y => if best.2 < y.2 then y else best) x)

/-- Return value of ActionScheduler.get_schedule_summary: the empty input
yields the bare dict with total = 0 and no other keys (modelled as none
fields). -/
structure ScheduleSummary where
  total : Nat
  startTime : Option Int := none
  endTime : Option Int := none
  duration_days : Option Int := none
  by_date : Option (List (Int × Nat)) := none
  by_type : Option (List (String × Nat)) := none
  by_batch : Option (List (String × Nat)) := none
  peak_date : Option Int := none
  peak_count : Option Nat := none
  deriving Repr

/-- ActionScheduler.get_schedule_summary. -/
def get_schedule_summary (scheduled_actions : List (ScheduledAction Int)) :
    ScheduleSummary :=
  match scheduled_actions with
  | [] => { total := 0 }
  | sa0 :: rest =>
    let l := sa0 :: rest
    let by_date := l.foldl (fun acc sa => bump acc (dateOf sa.scheduled_start)) []
    let by_type := l.foldl (fun acc sa => bump acc sa.action_type) []
    let by_batch := l.foldl (fun acc sa =>
      match sa.batch_id with
      | some b => bump acc b
      | none => acc) []
    let dates := l.map (fun sa => sa.scheduled_start)
    let dmin := (dates.foldl min sa0.scheduled_start)
    let dmax := (dates.foldl max sa0.scheduled_start)
    { total := l.length,
      startTime := some dmin,
      endTime := some dmax,
      duration_days := some ((dmax - dmin) / 1440),
      by_date := some by_date,
      by_type := some by_type,
      by_batch := some by_batch,
      peak_date := (argmax_first by_date).map Prod.fst,
      peak_count := (argmax_first by_date).map Prod.snd }

theorem bump_sum {α : Type} [DecidableEq α] :
    ∀ (l : List (α × Nat)) (key : α),
      ((bump l key).map Prod.snd).sum = (l.map Prod.snd).sum + 1 := by
  intro l
  induction l with
  | nil => intro key; simp [bump]
  | cons x rest ih =>
    intro key
    obtain ⟨k, v⟩ := x
    unfold bump
    by_cases h : k = key
    · rw [if_pos h]; simp; omega
    · rw [if_neg h]; simp [ih]; omega

theorem foldl_bump_sum {α β : Type} [DecidableEq α] (f : β → α) :
    ∀ (l : List β) (acc : List (α × Nat)),
      (((l.foldl (fun acc sa => bump acc (f sa)) acc)).map Prod.snd).sum =
        (acc.map Prod.snd).sum + l.length := by
  intro l
  induction l with
  | nil => intro acc; simp
  | cons x rest ih =>
    intro acc
    simp only [List.foldl_cons, List.length_cons]
    rw [ih, bump_sum]
    omega

/-- C9, confirmed: get_schedule_summary of the empty list returns total = 0
and no peak date, and for every placement list total equals the input
length and both the by_type counts and the by_date counts sum to the
total. -/
theorem claim_C9 :
    (get_schedule_summary []).total = 0 ∧
    (get_schedule_summary []).peak_date = none ∧
    (∀ l : List (ScheduledAction Int),
      (get_schedule_summary l).total = l.length ∧
      ((((get_schedule_summary l).by_type.getD []).map Prod.snd).sum = l.length) ∧
      ((((get_schedule_summary l).by_date.getD []).map Prod.snd).sum = l.length)) := by
  refine ⟨rfl, rfl, ?_⟩
  intro l
  match l with
  | [] => exact ⟨rfl, rfl, rfl⟩
  | sa0 :: rest =>
    refine ⟨rfl, ?_, ?_⟩
    · show ((((sa0 :: rest).foldl (fun acc sa => bump acc sa.action_type)
        []).map Prod.snd).sum) = (sa0 :: rest).length
      rw [foldl_bump_sum (fun sa : ScheduledAction Int => sa.action_type)]
      simp
    · show ((((sa0 :: rest).foldl
        (fun acc sa => bump acc (dateOf sa.scheduled_start)) []).map Prod.snd).sum)
        = (sa0 :: rest).length
      rw [foldl_bump_sum (fun sa : ScheduledAction Int => dateOf sa.scheduled_start)]
      simp

/-- The platform_windows dict lookup with default 15 in
ActionScheduler.schedule_social_burst. -/
def platformWindow (platform : String) : Int :=
  if platform = "twitter" then 10
  else if platform = "instagram" then 15
  else if platform = "tiktok" then 20
  else if platform = "linkedin" then 30
  else 15

/-- The enumerate loop of schedule_social_burst, carrying the running
index. -/
def burst_list (mk : Nat → Int → ScheduledAction ℚ) :
    Nat → List Int → List (ScheduledAction ℚ)
  | _, [] => []
  | i, a :: rest => mk i a :: burst_list mk (i + 1) rest

/-- The loop body of schedule_social_burst: the placement of the i-th
action, at burst_start + interval * i, where interval is
window_minutes / max(len(action_ids), 1) in exact rational arithmetic. -/
def burst_placement (action_ids : List Int) (burst_time pre_burst_minutes : ℚ)
    (platform : String) (i : Nat) (a : Int) : ScheduledAction ℚ :=
  { action_id := a, action_type := "social_post",
    scheduled_start := burst_time - pre_burst_minutes +
      (platformWindow platform : ℚ) / ((max action_ids.length 1 : Nat) : ℚ) * (i : ℚ),
    scheduled_end := burst_time - pre_burst_minutes +
      (platformWindow platform : ℚ) / ((max action_ids.length 1 : Nat) : ℚ) * (i : ℚ) + 5,
    priority := 1,
    batch_id := some ("social-burst-" ++ toString burst_time),
    notes := some ("POST AT EXACTLY " ++
      toString (burst_time - pre_burst_minutes +
        (platformWindow platform : ℚ) / ((max action_ids.length 1 : Nat) : ℚ) * (i : ℚ)) ++
      ". This is a coordinated action -- timing matters for trending.") }

/-- ActionScheduler.schedule_social_burst. -/
def schedule_social_burst (action_ids : List Int) (burst_time : ℚ)
    (pre_burst_minutes : ℚ) (platform : String) : List (ScheduledAction ℚ) :=
  burst_list (burst_placement action_ids burst_time pre_burst_minutes platform)
    0 action_ids

theorem platformWindow_pos (p : String) : 0 < platformWindow p := by
  unfold platformWindow
  split_ifs <;> norm_num

theorem burst_list_get? (mk : Nat → Int → ScheduledAction ℚ) :
    ∀ (l : List Int) (i j : Nat) (a : Int),
      l.get? j = some a → (burst_list mk i l).get? j = some (mk (i + j) a) := by
  intro l
  induction l with
  | nil => intro i j a h; simp at h
  | cons x rest ih =>
    intro i j a h
    cases j with
    | zero =>
      simp only [List.get?] at h
      cases h
      rfl
    | succ j =>
      simp only [List.get?] at h ⊢
      show (burst_list mk (i + 1) rest).get? j = some (mk (i + (j + 1)) a)
      have harith : i + 1 + j = i + (j + 1) := by omega
      rw [ih (i + 1) j a h, harith]

/-- C5, amended: for every non-empty action list, anchor A, platform and
0-based index i, schedule_social_burst places the i-th action at exactly
A - preAnchorMinutes + i * (W / N) minutes with uniform priority 1 and a
single batchId keyed by the anchor; the tightness bound
|scheduledStart - A| <= W holds under the added hypotheses
0 <= preAnchorMinutes <= W, without which it fails
(claim_C5_counterexample). -/
theorem claim_C5 (action_ids : List Int) (burst_time pre_burst_minutes : ℚ)
    (platform : String) (i : Nat) (a : Int)
    (ha : action_ids.get? i = some a) :
    ∃ p, (schedule_social_burst action_ids burst_time pre_burst_minutes
        platform).get? i = some p ∧
      p.action_id = a ∧
      p.action_type = "social_post" ∧
      p.scheduled_start = burst_time - pre_burst_minutes +
        (i : ℚ) * ((platformWindow platform : ℚ) / (action_ids.length : ℚ)) ∧
      p.scheduled_end = p.scheduled_start + 5 ∧
      p.priority = 1 ∧
      p.batch_id = some ("social-burst-" ++ toString burst_time) ∧
      (0 ≤ pre_burst_minutes → pre_burst_minutes ≤ (platformWindow platform : ℚ) →
        |p.scheduled_start - burst_time| ≤ (platformWindow platform : ℚ)) := by
  have hlen : i < action_ids.length := by
    by_contra hcon
    push_neg at hcon
    rw [List.get?_eq_none.mpr hcon] at ha
    exact Option.noConfusion ha
  have hlen1 : 1 ≤ action_ids.length := by omega
  have hmax : max action_ids.length 1 = action_ids.length := max_eq_left hlen1
  have hN : (0 : ℚ) < (action_ids.length : ℚ) := by exact_mod_cast hlen1
  have hstart : burst_time - pre_burst_minutes +
      (platformWindow platform : ℚ) / ((max action_ids.length 1 : Nat) : ℚ) * (i : ℚ) =
      burst_time - pre_burst_minutes +
        (i : ℚ) * ((platformWindow platform : ℚ) / (action_ids.length : ℚ)) := by
    rw [hmax]; ring
  refine ⟨burst_placement action_ids burst_time pre_burst_minutes platform (0 + i) a,
    ?_, rfl, rfl, ?_, rfl, rfl, rfl, ?_⟩
  · exact burst_list_get? _ action_ids 0 i a ha
  · show burst_time - pre_burst_minutes +
      (platformWindow platform : ℚ) / ((max action_ids.length 1 : Nat) : ℚ) * ((0 + i : Nat) : ℚ) = _
    rw [Nat.zero_add]
    exact hstart
  · intro hp0 hpW
    show |burst_time - pre_burst_minutes +
      (platformWindow platform : ℚ) / ((max action_ids.length 1 : Nat) : ℚ) * ((0 + i : Nat) : ℚ)
        - burst_time| ≤ _
    rw [Nat.zero_add, hstart]
    have hW : (0 : ℚ) < (platformWindow platform : ℚ) := by
      exact_mod_cast platformWindow_pos platform
    have hiN : (i : ℚ) ≤ (action_ids.length : ℚ) := by
      exact_mod_cast Nat.le_of_lt hlen
    have hdiv0 : (0 : ℚ) ≤ (platformWindow platform : ℚ) / (action_ids.length : ℚ) :=
      le_of_lt (div_pos hW hN)
    have hub : (i : ℚ) * ((platformWindow platform : ℚ) / (action_ids.length : ℚ)) ≤
        (platformWindow platform : ℚ) := by
      calc (i : ℚ) * ((platformWindow platform : ℚ) / (action_ids.length : ℚ))
          ≤ (action_ids.length : ℚ) *
            ((platformWindow platform : ℚ) / (action_ids.length : ℚ)) :=
            mul_le_mul_of_nonneg_right hiN hdiv0
        _ = (platformWindow platform : ℚ) :=
            mul_div_cancel₀ _ (ne_of_gt hN)
    have hlb : (0 : ℚ) ≤ (i : ℚ) * ((platformWindow platform : ℚ) / (action_ids.length : ℚ)) :=
      mul_nonneg (Nat.cast_nonneg i) hdiv0
    rw [abs_le]
    constructor <;> linarith

/-- C5 counterexample: with preAnchorMinutes = 100 on twitter (window
W = 10 minutes) and a single action at anchor 0, the one placement starts
100 minutes before the anchor, so |scheduledStart - A| <= W fails; the
claim quantified over every preAnchorMinutes is therefore false. -/
theorem claim_C5_counterexample :
    (schedule_social_burst [1] 0 100 "twitter").map
      (fun p => p.scheduled_start) = [-100] ∧
    ¬(|(-100 : ℚ) - 0| ≤ ((platformWindow "twitter" : Int) : ℚ)) := by
  constructor
  · show [(burst_placement [1] 0 100 "twitter" 0 1).scheduled_start] = [-100]
    simp only [burst_placement, platformWindow, if_pos]
    norm_num
  · have h : platformWindow "twitter" = 10 := rfl
    rw [h]
    norm_num

/-- Witness for claim_C5 at a concrete burst. -/
theorem claim_C5_witness :
    (([1, 2] : List Int).get? 1 = some 2) ∧
    (∃ p, (schedule_social_burst [1, 2] 0 1 "twitter").get? 1 = some p ∧
      p.action_id = 2 ∧
      p.action_type = "social_post" ∧
      p.scheduled_start = 0 - 1 +
        ((1 : Nat) : ℚ) * ((platformWindow "twitter" : ℚ) / (([1, 2] : List Int).length : ℚ)) ∧
      p.scheduled_end = p.scheduled_start + 5 ∧
      p.priority = 1 ∧
      p.batch_id = some ("social-burst-" ++ toString (0 : ℚ)) ∧
      ((0 : ℚ) ≤ 1 → (1 : ℚ) ≤ (platformWindow "twitter" : ℚ) →
        |p.scheduled_start - 0| ≤ (platformWindow "twitter" : ℚ))) :=
  ⟨rfl, claim_C5 [1, 2] 0 1 "twitter" 1 2 rfl⟩

/-- One tier loop of ActionScheduler.schedule_comment_period: place count
actions, reading action_ids[base + i] for tier-local index i; an
out-of-range read is Python IndexError, modelled as none. -/
def tier_loop (ids : List Int) (base : Nat) (mk : Nat → Int → ScheduledAction Int) :
    Nat → Nat → Option (List (ScheduledAction Int))
  | _i, 0 => some []
  | i, n + 1 =>
    match ids.get? (base + i) with
    | none => none
    | some aid =>
      match tier_loop ids base mk (i + 1) n with
      | none => none
      | some rest => some (mk i aid :: rest)

/-- Early-tier loop body of schedule_comment_period. The source computes
int((14 / max(early_count, 1)) * i) in floating point; for the relevant
magnitudes this equals the rational floor 14 * i / early_count used here. -/
def early_placement (campaign_start : Int) (early_count : Nat) (i : Nat)
    (aid : Int) : ScheduledAction Int :=
  { action_id := aid, action_type := "public_comment",
    scheduled_start := campaign_start + ((14 * i / early_count : Nat) : Int) * 1440 + 600,
    scheduled_end := campaign_start + ((14 * i / early_count : Nat) : Int) * 1440 + 600 + 120,
    priority := 2, batch_id := some "comment-early",
    notes := some ("EARLY COMMENT: Your comment will help shape the initial " ++
      "framing. Be thorough and cite primary sources.") }

/-- Middle-tier loop body of schedule_comment_period. -/
def middle_placement (middle_start : Int) (middle_count : Nat) (i : Nat)
    (aid : Int) : ScheduledAction Int :=
  { action_id := aid, action_type := "public_comment",
    scheduled_start := middle_start + ((14 * i / middle_count : Nat) : Int) * 1440 + 840,
    scheduled_end := middle_start + ((14 * i / middle_count : Nat) : Int) * 1440 + 840 + 120,
    priority := 5, batch_id := some "comment-middle",
    notes := some "Sustain comment flow. Cite new evidence or different angles." }

/-- Final-ramp loop body of schedule_comment_period: quadratic day offset
int(((i / max(ramp_count - 1, 1)) ** 2) * (ramp_up_days - 1)), which is
the truncated-towards-zero quotient below, and an hour drawn by
randint(9, 16). -/
def ramp_placement (rng : Nat → Int) (ramp_start ramp_up_days ramp_count : Int)
    (i : Nat) (aid : Int) : ScheduledAction Int :=
  { action_id := aid, action_type := "public_comment",
    scheduled_start := ramp_start +
      (((i : Int) ^ 2 * (ramp_up_days - 1)).tdiv ((max (ramp_count - 1) 1) ^ 2)) * 1440 +
      (9 + (rng i) % 8) * 60,
    scheduled_end := ramp_start +
      (((i : Int) ^ 2 * (ramp_up_days - 1)).tdiv ((max (ramp_count - 1) 1) ^ 2)) * 1440 +
      (9 + (rng i) % 8) * 60 + 120,
    priority := 3, batch_id := some "comment-rampup",
    notes := some ("DEADLINE PUSH: Volume matters now. Filed is better than " ++
      "perfect-but-missed.") }

/-- ActionScheduler.schedule_comment_period: 20 percent early, 20 percent
middle (each at least 1), remainder in the final ramp; the campaign spans
the 6 weeks (60480 minutes) before the deadline, the middle tier starts
2 weeks (20160 minutes) in, and the ramp starts ramp_up_days days before
the deadline. int(total * 0.2) equals total / 5 for any list length. -/
def schedule_comment_period (rng : Nat → Int) (action_ids : List Int)
    (comment_deadline : Int) (ramp_up_days : Int) :
    Option (List (ScheduledAction Int)) :=
  let total := action_ids.length
  if total = 0 then some []
  else
    let early_count := max 1 (total / 5)
    let middle_count := max 1 (total / 5)
    let ramp_count : Int := (total : Int) - early_count - middle_count
    let campaign_start := comment_deadline - 60480
    let ramp_start := comment_deadline - ramp_up_days * 1440
    let middle_start := campaign_start + 20160
    match tier_loop action_ids 0 (early_placement campaign_start early_count)
        0 early_count with
    | none => none
    | some earlyL =>
      match tier_loop action_ids early_count
          (middle_placement middle_start middle_count) 0 middle_count with
      | none => none
      | some middleL =>
        match tier_loop action_ids (early_count + middle_count)
            (ramp_placement rng ramp_start ramp_up_days ramp_count)
            0 ramp_count.toNat with
        | none => none
        | some rampL => some (earlyL ++ middleL ++ rampL)

theorem tier_loop_total (ids : List Int) (base : Nat)
    (mk : Nat → Int → ScheduledAction Int) :
    ∀ n i, base + i + n ≤ ids.length →
      ∃ l, tier_loop ids base mk i n = some l := by
  intro n
  induction n with
  | zero => intro i _; exact ⟨[], rfl⟩
  | succ n ih =>
    intro i h
    have hlt : base + i < ids.length := by omega
    obtain ⟨rest, hrest⟩ := ih (i + 1) (by omega)
    refine ⟨mk i ids[base + i] :: rest, ?_⟩
    unfold tier_loop
    rw [List.get?_eq_get hlt]
    simp only []
    rw [hrest]
    rfl

theorem tier_loop_length (ids : List Int) (base : Nat)
    (mk : Nat → Int → ScheduledAction Int) :
    ∀ n i l, tier_loop ids base mk i n = some l → l.length = n := by
  intro n
  induction n with
  | zero =>
    intro i l h
    unfold tier_loop at h
    cases h
    rfl
  | succ n ih =>
    intro i l h
    unfold tier_loop at h
    cases hg : ids.get? (base + i) with
    | none => rw [hg] at h; exact Option.noConfusion h
    | some aid =>
      rw [hg] at h
      cases hr : tier_loop ids base mk (i + 1) n with
      | none => rw [hr] at h; exact Option.noConfusion h
      | some rest =>
        rw [hr] at h
        cases h
        simp [ih (i + 1) rest hr]

theorem tier_loop_ids (ids : List Int) (base : Nat)
    (mk : Nat → Int → ScheduledAction Int)
    (hmk : ∀ j a, (mk j a).action_id = a) :
    ∀ n i l, tier_loop ids base mk i n = some l →
      l.map (fun p => p.action_id) = (ids.drop (base + i)).take n := by
  intro n
  induction n with
  | zero =>
    intro i l h
    unfold tier_loop at h
    cases h
    simp
  | succ n ih =>
    intro i l h
    unfold tier_loop at h
    cases hg : ids.get? (base + i) with
    | none => rw [hg] at h; exact Option.noConfusion h
    | some aid =>
      rw [hg] at h
      cases hr : tier_loop ids base mk (i + 1) n with
      | none => rw [hr] at h; exact Option.noConfusion h
      | some rest =>
        rw [hr] at h
        cases h
        have hlt : base + i < ids.length := (List.get?_eq_some.mp hg).1
        have hget : ids[base + i] = aid := by
          have := List.get?_eq_get hlt
          rw [hg] at this
          exact (Option.some.injEq _ _).mp this.symm
        rw [List.drop_eq_getElem_cons hlt]
        simp only [List.map_cons, List.take_succ_cons, hmk, hget]
        have harr : base + (i + 1) = base + i + 1 := by omega
        rw [← harr, ih (i + 1) rest hr]

theorem tier_loop_mem (ids : List Int) (base : Nat)
    (mk : Nat → Int → ScheduledAction Int) :
    ∀ n i l, tier_loop ids base mk i n = some l →
      ∀ p ∈ l, ∃ j a, i ≤ j ∧ j < i + n ∧ ids.get? (base + j) = some a ∧
        p = mk j a := by
  intro n
  induction n with
  | zero =>
    intro i l h
    unfold tier_loop at h
    cases h
    intro p hp
    exact absurd hp (List.not_mem_nil p)
  | succ n ih =>
    intro i l h
    unfold tier_loop at h
    cases hg : ids.get? (base + i) with
    | none => rw [hg] at h; exact Option.noConfusion h
    | some aid =>
      rw [hg] at h
      cases hr : tier_loop ids base mk (i + 1) n with
      | none => rw [hr] at h; exact Option.noConfusion h
      | some rest =>
        rw [hr] at h
        cases h
        intro p hp
        rcases List.mem_cons.mp hp with hp0 | hp1
        · exact ⟨i, aid, le_refl i, by omega, hg, hp0⟩
        · obtain ⟨j, a, hj1, hj2, hj3, hj4⟩ := ih (i + 1) rest hr p hp1
          exact ⟨j, a, by omega, by omega, hj3, hj4⟩

theorem early_placement_lt_deadline (D : Int) (ec : Nat) (hec : 0 < ec)
    (j : Nat) (hj : j < ec) (a : Int) :
    (early_placement (D - 60480) ec j a).scheduled_start < D := by
  have hoff : 14 * j / ec < 14 := (Nat.div_lt_iff_lt_mul hec).mpr (by omega)
  have hoffZ : ((14 * j / ec : Nat) : Int) ≤ 13 := by exact_mod_cast Nat.le_of_lt_succ hoff
  show D - 60480 + ((14 * j / ec : Nat) : Int) * 1440 + 600 < D
  omega

theorem middle_placement_lt_deadline (D : Int) (mc : Nat) (hmc : 0 < mc)
    (j : Nat) (hj : j < mc) (a : Int) :
    (middle_placement (D - 60480 + 20160) mc j a).scheduled_start < D := by
  have hoff : 14 * j / mc < 14 := (Nat.div_lt_iff_lt_mul hmc).mpr (by omega)
  have hoffZ : ((14 * j / mc : Nat) : Int) ≤ 13 := by exact_mod_cast Nat.le_of_lt_succ hoff
  show D - 60480 + 20160 + ((14 * j / mc : Nat) : Int) * 1440 + 840 < D
  omega

theorem ramp_placement_lt_deadline (rng : Nat → Int) (D rd rc : Int)
    (hrd : 1 ≤ rd) (j : Nat) (hj : (j : Int) ≤ rc - 1) (a : Int) :
    (ramp_placement rng (D - rd * 1440) rd rc j a).scheduled_start < D := by
  have hm1 : (1 : Int) ≤ max (rc - 1) 1 := le_max_right _ _
  have hmpos : (0 : Int) < (max (rc - 1) 1) ^ 2 := pow_pos (by omega) 2
  have hjile : (j : Int) ≤ max (rc - 1) 1 := le_trans hj (le_max_left _ _)
  have hnum_nonneg : 0 ≤ (j : Int) ^ 2 * (rd - 1) :=
    mul_nonneg (sq_nonneg _) (by omega)
  have hnum_le : (j : Int) ^ 2 * (rd - 1) ≤ (max (rc - 1) 1) ^ 2 * (rd - 1) :=
    mul_le_mul_of_nonneg_right
      (pow_le_pow_left₀ (Int.natCast_nonneg j) hjile 2) (by omega)
  have hconv : ((j : Int) ^ 2 * (rd - 1)).tdiv ((max (rc - 1) 1) ^ 2) =
      ((j : Int) ^ 2 * (rd - 1)) / ((max (rc - 1) 1) ^ 2) :=
    Int.tdiv_eq_ediv hnum_nonneg (le_of_lt hmpos)
  have hoffle : ((j : Int) ^ 2 * (rd - 1)) / ((max (rc - 1) 1) ^ 2) ≤
      ((max (rc - 1) 1) ^ 2 * (rd - 1)) / ((max (rc - 1) 1) ^ 2) :=
    Int.ediv_le_ediv hmpos hnum_le
  have hcancel : ((max (rc - 1) 1) ^ 2 * (rd - 1)) / ((max (rc - 1) 1) ^ 2) = rd - 1 :=
    Int.mul_ediv_cancel_left _ (ne_of_gt hmpos)
  have hoff : ((j : Int) ^ 2 * (rd - 1)).tdiv ((max (rc - 1) 1) ^ 2) ≤ rd - 1 := by
    rw [hconv]
    omega
  have hhi : (rng j) % 8 < 8 := by omega
  have hlo : 0 ≤ (rng j) % 8 := by omega
  simp only [ramp_placement]
  omega

/-- C1, amended: for every list of at least TWO action ids, every deadline
and every rampUpDays >= 1, schedule_comment_period returns exactly one
placement per input action id (in input order), partitioned into an early
tier of max(1, floor(0.2 * total)) placements with batchId comment-early,
a middle tier of the same size with batchId comment-middle, and a final
tier of the remaining placements with batchId comment-rampup, every
placement scheduled strictly before the deadline. The original claim over
single-action inputs and arbitrary rampUpDays is refuted by
claim_C1_counterexample: one action raises IndexError, and
rampUpDays = 0 schedules a ramp placement after the deadline. -/
theorem claim_C1 (rng : Nat → Int) (action_ids : List Int)
    (comment_deadline ramp_up_days : Int)
    (h2 : 2 ≤ action_ids.length) (hrd : 1 ≤ ramp_up_days) :
    ∃ earlyL middleL rampL,
      schedule_comment_period rng action_ids comment_deadline ramp_up_days =
        some (earlyL ++ middleL ++ rampL) ∧
      earlyL.length = max 1 (action_ids.length / 5) ∧
      middleL.length = max 1 (action_ids.length / 5) ∧
      earlyL.length + middleL.length + rampL.length = action_ids.length ∧
      (earlyL ++ middleL ++ rampL).map (fun p => p.action_id) = action_ids ∧
      (∀ p ∈ earlyL, p.batch_id = some "comment-early") ∧
      (∀ p ∈ middleL, p.batch_id = some "comment-middle") ∧
      (∀ p ∈ rampL, p.batch_id = some "comment-rampup") ∧
      (∀ p ∈ earlyL ++ middleL ++ rampL,
        p.scheduled_start < comment_deadline) := by
  have hsum : max 1 (action_ids.length / 5) + max 1 (action_ids.length / 5) ≤
      action_ids.length := by omega
  have hecpos : 0 < max 1 (action_ids.length / 5) := by omega
  obtain ⟨earlyL, hE⟩ := tier_loop_total action_ids 0
    (early_placement (comment_deadline - 60480) (max 1 (action_ids.length / 5)))
    (max 1 (action_ids.length / 5)) 0 (by omega)
  obtain ⟨middleL, hM⟩ := tier_loop_total action_ids (max 1 (action_ids.length / 5))
    (middle_placement (comment_deadline - 60480 + 20160) (max 1 (action_ids.length / 5)))
    (max 1 (action_ids.length / 5)) 0 (by omega)
  obtain ⟨rampL, hR⟩ := tier_loop_total action_ids
    (max 1 (action_ids.length / 5) + max 1 (action_ids.length / 5))
    (ramp_placement rng (comment_deadline - ramp_up_days * 1440) ramp_up_days
      ((action_ids.length : Int) - max 1 (action_ids.length / 5) -
        max 1 (action_ids.length / 5)))
    (((action_ids.length : Int) - max 1 (action_ids.length / 5) -
        max 1 (action_ids.length / 5)).toNat) 0 (by omega)
  have hmain : schedule_comment_period rng action_ids comment_deadline ramp_up_days =
      some (earlyL ++ middleL ++ rampL) := by
    simp only [schedule_comment_period]
    rw [if_neg (by omega), hE, hM, hR]
  have hlenE := tier_loop_length action_ids 0 _ _ _ _ hE
  have hlenM := tier_loop_length action_ids _ _ _ _ _ hM
  have hlenR := tier_loop_length action_ids _ _ _ _ _ hR
  refine ⟨earlyL, middleL, rampL, hmain, hlenE, hlenM, by omega, ?_, ?_, ?_, ?_, ?_⟩
  · have hmapE := tier_loop_ids action_ids 0 _ (fun j a => rfl) _ _ _ hE
    have hmapM := tier_loop_ids action_ids (max 1 (action_ids.length / 5)) _
      (fun j a => rfl) _ _ _ hM
    have hmapR := tier_loop_ids action_ids
      (max 1 (action_ids.length / 5) + max 1 (action_ids.length / 5)) _
      (fun j a => rfl) _ _ _ hR
    rw [List.map_append, List.map_append, hmapE, hmapM, hmapR]
    simp only [Nat.add_zero, Nat.zero_add, List.drop_zero]
    have hRfull : (action_ids.drop
        (max 1 (action_ids.length / 5) + max 1 (action_ids.length / 5))).take
        (((action_ids.length : Int) - max 1 (action_ids.length / 5) -
          max 1 (action_ids.length / 5)).toNat) =
        action_ids.drop (max 1 (action_ids.length / 5) + max 1 (action_ids.length / 5)) := by
      apply List.take_of_length_le
      rw [List.length_drop]
      omega
    rw [hRfull]
    have hdd : action_ids.drop (max 1 (action_ids.length / 5) + max 1 (action_ids.length / 5)) =
        (action_ids.drop (max 1 (action_ids.length / 5))).drop (max 1 (action_ids.length / 5)) := by
      rw [List.drop_drop]
    rw [hdd, List.append_assoc, List.take_append_drop, List.take_append_drop]
  · intro p hp
    obtain ⟨j, a, _, _, _, hpa⟩ := tier_loop_mem action_ids 0 _ _ _ _ hE p hp
    rw [hpa]; rfl
  · intro p hp
    obtain ⟨j, a, _, _, _, hpa⟩ := tier_loop_mem action_ids _ _ _ _ _ hM p hp
    rw [hpa]; rfl
  · intro p hp
    obtain ⟨j, a, _, _, _, hpa⟩ := tier_loop_mem action_ids _ _ _ _ _ hR p hp
    rw [hpa]; rfl
  · intro p hp
    rcases List.mem_append.mp hp with hp12 | hp3
    · rcases List.mem_append.mp hp12 with hp1 | hp2
      · obtain ⟨j, a, _, hjlt, _, hpa⟩ := tier_loop_mem action_ids 0 _ _ _ _ hE p hp1
        rw [hpa]
        exact early_placement_lt_deadline comment_deadline _ hecpos j (by omega) a
      · obtain ⟨j, a, _, hjlt, _, hpa⟩ := tier_loop_mem action_ids _ _ _ _ _ hM p hp2
        rw [hpa]
        exact middle_placement_lt_deadline comment_deadline _ hecpos j (by omega) a
    · obtain ⟨j, a, _, hjlt, _, hpa⟩ := tier_loop_mem action_ids _ _ _ _ _ hR p hp3
      rw [hpa]
      exact ramp_placement_lt_deadline rng comment_deadline ramp_up_days _ hrd j
        (by omega) a

/-- C1 counterexample: a single-action input makes the middle tier read
action_ids[1], an IndexError (none), instead of returning one placement;
and with rampUpDays = 0 (the claim quantifies over every rampUpDays) the
one ramp placement of a 3-action input is scheduled at the deadline plus
its random hour, i.e. not strictly before the deadline. -/
theorem claim_C1_counterexample :
    schedule_comment_period (fun _ => 9) [7] 100000 14 = none ∧
    (((schedule_comment_period (fun _ => 9) [1, 2, 3] 144000000 0).getD []).filter
        (fun p => decide ((144000000 : Int) ≤ p.scheduled_start))).length = 1 := by
  exact ⟨rfl, rfl⟩

/-- Witness for claim_C1 at a concrete five-action comment period. -/
theorem claim_C1_witness :
    (2 ≤ ([1, 2, 3, 4, 5] : List Int).length) ∧ ((1 : Int) ≤ 14) ∧
    (∃ earlyL middleL rampL,
      schedule_comment_period (fun _ => 0) [1, 2, 3, 4, 5] 100000 14 =
        some (earlyL ++ middleL ++ rampL) ∧
      earlyL.length = max 1 (([1, 2, 3, 4, 5] : List Int).length / 5) ∧
      middleL.length = max 1 (([1, 2, 3, 4, 5] : List Int).length / 5) ∧
      earlyL.length + middleL.length + rampL.length =
        ([1, 2, 3, 4, 5] : List Int).length ∧
      (earlyL ++ middleL ++ rampL).map (fun p => p.action_id) = [1, 2, 3, 4, 5] ∧
      (∀ p ∈ earlyL, p.batch_id = some "comment-early") ∧
      (∀ p ∈ middleL, p.batch_id = some "comment-middle") ∧
      (∀ p ∈ rampL, p.batch_id = some "comment-rampup") ∧
      (∀ p ∈ earlyL ++ middleL ++ rampL, p.scheduled_start < 100000)) :=
  ⟨by decide, by decide,
    claim_C1 (fun _ => 0) [1, 2, 3, 4, 5] 100000 14 (by decide) (by decide)⟩

/-- The inner weekend-skip while loop of schedule_email_campaign: while the
cursor is on a weekend day, move it to 09:00 on the next calendar day.
Two iterations always suffice (Saturday needs two, Sunday one); the fuel
argument makes the loop structurally recursive and none models fuel
exhaustion, which skip_weekend_total shows never happens at fuel 2. -/
def skip_weekend : Nat → Int → Option Int
  | 0, t => if 5 ≤ weekday t then none else some t
  | n + 1, t =>
    if 5 ≤ weekday t then skip_weekend n (combine (dateOf t + 1) 540)
    else some t

theorem skip_weekend_valid :
    ∀ n t r, skip_weekend n t = some r → weekday r < 5 := by
  intro n
  induction n with
  | zero =>
    intro t r h
    unfold skip_weekend at h
    split at h
    · exact Option.noConfusion h
    · cases h; omega
  | succ n ih =>
    intro t r h
    unfold skip_weekend at h
    split at h
    · exact ih _ r h
    · cases h; omega

theorem skip_weekend_le :
    ∀ n t r, skip_weekend n t = some r → t ≤ r := by
  intro n
  induction n with
  | zero =>
    intro t r h
    unfold skip_weekend at h
    split at h
    · exact Option.noConfusion h
    · cases h; omega
  | succ n ih =>
    intro t r h
    unfold skip_weekend at h
    split at h
    · have h1 := ih _ r h
      have h2 := lt_combine_next_date t
      have h3 : combine (dateOf t + 1) 0 ≤ combine (dateOf t + 1) 540 := by
        unfold combine; omega
      omega
    · cases h; omega

theorem skip_weekend_total (t : Int) : ∃ r, skip_weekend 2 t = some r := by
  have h7 := weekday_nonneg t
  have h7' := weekday_lt t
  by_cases h : 5 ≤ weekday t
  · have hd : weekday t = dateOf t % 7 := rfl
    have hw1 : weekday (combine (dateOf t + 1) 540) = (dateOf t + 1) % 7 :=
      weekday_combine _ 540 (by omega) (by omega)
    by_cases h6 : weekday t = 6
    · refine ⟨combine (dateOf t + 1) 540, ?_⟩
      unfold skip_weekend
      rw [if_pos h]
      unfold skip_weekend
      rw [if_neg (by omega)]
    · have h5 : weekday t = 5 := by omega
      have hw2 : weekday (combine (dateOf (combine (dateOf t + 1) 540) + 1) 540) =
          (dateOf (combine (dateOf t + 1) 540) + 1) % 7 :=
        weekday_combine _ 540 (by omega) (by omega)
      have hd1 : dateOf (combine (dateOf t + 1) 540) = dateOf t + 1 :=
        dateOf_combine _ 540 (by omega) (by omega)
      refine ⟨combine (dateOf t + 1 + 1) 540, ?_⟩
      unfold skip_weekend
      rw [if_pos h]
      unfold skip_weekend
      rw [if_pos (by rw [hw1]; omega)]
      unfold skip_weekend
      rw [hd1, if_neg (by rw [weekday_combine _ 540 (by omega) (by omega)]; omega)]
  · exact ⟨t, by unfold skip_weekend; rw [if_neg h]⟩

/-- The placement record built by one schedule_email_campaign iteration:
the i-th action at the weekend-adjusted cursor ct, priority
max(1, 5 - i // emails_per_day) (Python floor division, Int.fdiv) and a
batch id tagged with the loop's current_date. -/
def email_placement (i : Nat) (current_date : Int) (emails_per_day : Int)
    (personalization_required : Bool) (ct : Int) (aid : Int) :
    ScheduledAction Int :=
  { action_id := aid, action_type := "email",
    scheduled_start := ct, scheduled_end := ct + 60,
    priority := max 1 (5 - Int.fdiv (i : Int) emails_per_day),
    batch_id := some ("email-batch-" ++ toString current_date),
    notes :=
      if personalization_required then
        some ("IMPORTANT: Personalize this email. Do not send the " ++
          "template verbatim.")
      else none }

/-- The cursor advance at the end of one schedule_email_campaign
iteration: reaching the daily cap rolls to 09:xx next day with the daily
count reset; otherwise the cursor moves by stagger_minutes plus jitter,
rolling to 09:xx next day (without resetting the count) when it reaches
18:00. Returns (current_date, daily_count, current_time). -/
def email_next (rmin rjit : Nat → Int) (emails_per_day stagger_minutes : Int)
    (i : Nat) (current_date : Int) (daily_count : Nat) (ct : Int) :
    Int × Nat × Int :=
  if emails_per_day ≤ (daily_count : Int) + 1 then
    (current_date + 1, 0, combine (current_date + 1) (540 + (rmin i) % 31))
  else if 18 ≤ hourOf (ct + stagger_minutes + (rjit i) % 11) then
    (current_date + 1, daily_count + 1,
      combine (current_date + 1) (540 + (rmin i) % 31))
  else
    (current_date, daily_count + 1, ct + stagger_minutes + (rjit i) % 11)

/-- The body of the schedule_email_campaign loop: the enumerate index,
Python current_date (a day number), daily_count and current_time,
advanced action by action. The none result models the ZeroDivisionError
that i // emails_per_day raises when emails_per_day = 0, and weekend-skip
fuel exhaustion (which cannot happen, skip_weekend_total). -/
def email_loop (w : ScheduleWindow) (rmin rjit : Nat → Int)
    (emails_per_day stagger_minutes : Int) (personalization_required : Bool) :
    Nat → Int → Nat → Int → List Int → Option (List (ScheduledAction Int))
  | _i, _current_date, _daily_count, _current_time, [] => some []
  | i, current_date, daily_count, current_time, aid :: rest =>
    if dateOf w.endTime < current_date then some []
    else
      (skip_weekend 2 current_time).bind (fun ct =>
        if emails_per_day = 0 then none
        else
          (email_loop w rmin rjit emails_per_day stagger_minutes
              personalization_required (i + 1)
              (email_next rmin rjit emails_per_day stagger_minutes i
                current_date daily_count ct).1
              (email_next rmin rjit emails_per_day stagger_minutes i
                current_date daily_count ct).2.1
              (email_next rmin rjit emails_per_day stagger_minutes i
                current_date daily_count ct).2.2 rest).map
            (fun l => email_placement i current_date emails_per_day
              personalization_required ct aid :: l))

/-- ActionScheduler.schedule_email_campaign. The initial cursor is the
first valid business instant at or after window.start; the source while
loop either exits within three adjustments or never (when hour 9 is
blocked), so fuel 3 is exact. -/
def schedule_email_campaign (rmin rjit : Nat → Int) (action_ids : List Int)
    (w : ScheduleWindow) (emails_per_day stagger_minutes : Int)
    (personalization_required : Bool) : Option (List (ScheduledAction Int)) :=
  match next_business_hour w 3 w.start with
  | none => none
  | some t0 =>
    email_loop w rmin rjit emails_per_day stagger_minutes
      personalization_required 0 (dateOf w.start) 0 t0 action_ids

/-- A phase dict from CampaignBuilder as consumed by
schedule_escalation_sequence: its phase number, name and duration in
weeks. -/
structure Phase where
  phase : Int
  name : String
  duration_weeks : Int
  deriving DecidableEq, Repr

/-- One placement of the phase day-distribution: the j-th action of a day
lands at hour 9 + (j mod 8) with a randint(0, 59) minute, with the phase
number as priority. k is the index of the day's first random draw. -/
def escalation_placement (rng : Nat → Int) (k : Nat) (pnum : Int)
    (pname : String) (d : Int) (j : Nat) (aid : Int) : ScheduledAction Int :=
  { action_id := aid, action_type := "mixed",
    scheduled_start := combine d (((9 + (j % 8) : Nat) : Int) * 60 + (rng (k + j)) % 60),
    scheduled_end :=
      combine d (((9 + (j % 8) : Nat) : Int) * 60 + (rng (k + j)) % 60) + 120,
    priority := pnum,
    batch_id := some ("phase-" ++ toString pnum ++ "-" ++ toString d),
    notes := some ("Escalation Phase " ++ toString pnum ++ ": " ++ pname) }

/-- The placements of one business day of a phase: one per action of the
day's slice, in slice order. -/
def phase_day_placements (rng : Nat → Int) (k : Nat) (pnum : Int)
    (pname : String) (d : Int) (daily : List Int) : List (ScheduledAction Int) :=
  daily.enum.map (fun ja => escalation_placement rng k pnum pname d ja.1 ja.2)

/-- The day loop of schedule_escalation_sequence for one phase: iterate
day_offset over the phase's calendar days, skip weekend days, give each
remaining day the next actions_per_day actions of the phase's list, and
stop early once every assigned action is placed. Returns the placements
and the advanced random-draw counter. -/
def phase_days_loop (rng : Nat → Int) (pnum : Int) (pname : String)
    (phase_actions : List Int) (phase_start : Int) (apd : Nat) :
    Nat → Nat → Nat → Nat → List (ScheduledAction Int) × Nat
  | _off, 0, _idx, k => ([], k)
  | off, dl + 1, idx, k =>
    if 5 ≤ (phase_start + (off : Int)) % 7 then
      phase_days_loop rng pnum pname phase_actions phase_start apd
        (off + 1) dl idx k
    else
      if phase_actions.length ≤ idx + ((phase_actions.drop idx).take apd).length then
        (phase_day_placements rng k pnum pname (phase_start + (off : Int))
            ((phase_actions.drop idx).take apd),
          k + ((phase_actions.drop idx).take apd).length)
      else
        (phase_day_placements rng k pnum pname (phase_start + (off : Int))
            ((phase_actions.drop idx).take apd) ++
          (phase_days_loop rng pnum pname phase_actions phase_start apd
            (off + 1) dl (idx + ((phase_actions.drop idx).take apd).length)
            (k + ((phase_actions.drop idx).take apd).length)).1,
          (phase_days_loop rng pnum pname phase_actions phase_start apd
            (off + 1) dl (idx + ((phase_actions.drop idx).take apd).length)
            (k + ((phase_actions.drop idx).take apd).length)).2)

/-- The phase loop of schedule_escalation_sequence: phases consume
calendar time in order (7 * duration_weeks days each; an empty phase
still advances the cursor); a non-empty phase distributes its actions
over max(1, 7 * duration_weeks) days at
max(1, count // days_in_phase) actions per business day. -/
def escalation_loop (rng : Nat → Int) (actions_per_phase : Int → List Int) :
    List Phase → Int → Nat → List (ScheduledAction Int) × Nat
  | [], _phase_start, k => ([], k)
  | ph :: rest, phase_start, k =>
    if (actions_per_phase ph.phase).isEmpty then
      escalation_loop rng actions_per_phase rest
        (phase_start + 7 * ph.duration_weeks) k
    else
      (((phase_days_loop rng ph.phase ph.name (actions_per_phase ph.phase)
          phase_start
          (max 1 ((actions_per_phase ph.phase).length /
            (max 1 (7 * ph.duration_weeks)).toNat))
          0 (max 1 (7 * ph.duration_weeks)).toNat 0 k).1 ++
        (escalation_loop rng actions_per_phase rest
          (phase_start + 7 * ph.duration_weeks)
          (phase_days_loop rng ph.phase ph.name (actions_per_phase ph.phase)
            phase_start
            (max 1 ((actions_per_phase ph.phase).length /
              (max 1 (7 * ph.duration_weeks)).toNat))
            0 (max 1 (7 * ph.duration_weeks)).toNat 0 k).2).1),
        (escalation_loop rng actions_per_phase rest
          (phase_start + 7 * ph.duration_weeks)
          (phase_days_loop rng ph.phase ph.name (actions_per_phase ph.phase)
            phase_start
            (max 1 ((actions_per_phase ph.phase).length /
              (max 1 (7 * ph.duration_weeks)).toNat))
            0 (max 1 (7 * ph.duration_weeks)).toNat 0 k).2).2)

/-- ActionScheduler.schedule_escalation_sequence (campaign_start is a day
number). -/
def schedule_escalation_sequence (rng : Nat → Int) (phases : List Phase)
    (campaign_start : Int) (actions_per_phase : Int → List Int) :
    List (ScheduledAction Int) :=
  (escalation_loop rng actions_per_phase phases campaign_start 0).1

/-- The chained start day of the m-th phase (0-based): campaign start plus
7 days per preceding phase week. -/
def phase_start_day (phases : List Phase) (campaign_start : Int) (m : Nat) : Int :=
  campaign_start + 7 * (((phases.map (fun ph => ph.duration_weeks)).take m).sum)

theorem phase_day_placements_mem (rng : Nat → Int) (k : Nat) (pnum : Int)
    (pname : String) (d : Int) (daily : List Int) :
    ∀ p ∈ phase_day_placements rng k pnum pname d daily,
      ∃ j aid, j < daily.length ∧ p = escalation_placement rng k pnum pname d j aid := by
  intro p hp
  obtain ⟨ja, hja, hpe⟩ := List.mem_map.mp hp
  exact ⟨ja.1, ja.2, List.fst_lt_of_mem_enum hja, hpe.symm⟩

theorem phase_day_placements_ids (rng : Nat → Int) (k : Nat) (pnum : Int)
    (pname : String) (d : Int) (daily : List Int) :
    (phase_day_placements rng k pnum pname d daily).map (fun p => p.action_id) =
      daily := by
  unfold phase_day_placements
  rw [List.map_map]
  have hfe : ((fun p : ScheduledAction Int => p.action_id) ∘
      fun ja : Nat × Int => escalation_placement rng k pnum pname d ja.1 ja.2) =
      Prod.snd := by
    funext ja
    rfl
  rw [hfe, List.enum_map_snd]

theorem phase_day_placements_length (rng : Nat → Int) (k : Nat) (pnum : Int)
    (pname : String) (d : Int) (daily : List Int) :
    (phase_day_placements rng k pnum pname d daily).length = daily.length := by
  unfold phase_day_placements
  rw [List.length_map, List.enum_length]

/-- Shape of an escalation placement instant: its day and its
minute-of-day range. -/
theorem escalation_placement_shape (rng : Nat → Int) (k : Nat) (pnum : Int)
    (pname : String) (d : Int) (j : Nat) (aid : Int) :
    ∃ x, (escalation_placement rng k pnum pname d j aid).scheduled_start =
        combine d x ∧ 540 ≤ x ∧ x ≤ 1019 ∧
      (escalation_placement rng k pnum pname d j aid).priority = pnum ∧
      (escalation_placement rng k pnum pname d j aid).action_id = aid := by
  refine ⟨(((9 + (j % 8) : Nat) : Int) * 60 + (rng (k + j)) % 60), rfl, ?_, ?_, rfl, rfl⟩
  · have h8 : (j % 8) < 8 := Nat.mod_lt _ (by omega)
    have h8' : ((9 + (j % 8) : Nat) : Int) ≥ 9 := by exact_mod_cast Nat.le_add_right 9 _
    have hr : 0 ≤ (rng (k + j)) % 60 := by omega
    omega
  · have h8 : (j % 8) < 8 := Nat.mod_lt _ (by omega)
    have h8' : ((9 + (j % 8) : Nat) : Int) ≤ 16 := by exact_mod_cast by omega
    have hr : (rng (k + j)) % 60 < 60 := by omega
    omega

/-- Every placement the day loop emits lies on a non-weekend day number in
the remaining day range, between 09:00 and 16:59, with the phase number
as priority. -/
theorem phase_days_loop_mem (rng : Nat → Int) (pnum : Int) (pname : String)
    (pa : List Int) (ps : Int) (apd : Nat) :
    ∀ dl off idx k,
      ∀ p ∈ (phase_days_loop rng pnum pname pa ps apd off dl idx k).1,
        ∃ d x, p.scheduled_start = combine d x ∧ p.priority = pnum ∧
          ps + (off : Int) ≤ d ∧ d < ps + (off : Int) + (dl : Int) ∧
          d % 7 < 5 ∧ 540 ≤ x ∧ x ≤ 1019 := by
  intro dl
  induction dl with
  | zero =>
    intro off idx k p hp
    exact absurd hp (List.not_mem_nil p)
  | succ dl ih =>
    intro off idx k p hp
    unfold phase_days_loop at hp
    by_cases hwk : 5 ≤ (ps + (off : Int)) % 7
    · rw [if_pos hwk] at hp
      obtain ⟨d, x, h1, h2, h3, h4, h5, h6, h7⟩ := ih (off + 1) idx k p hp
      refine ⟨d, x, h1, h2, by push_cast at h3 ⊢; omega, by push_cast at h4 ⊢; omega,
        h5, h6, h7⟩
    · rw [if_neg hwk] at hp
      have hday : ∀ q ∈ phase_day_placements rng k pnum pname (ps + (off : Int))
          ((pa.drop idx).take apd),
          ∃ d x, q.scheduled_start = combine d x ∧ q.priority = pnum ∧
            ps + (off : Int) ≤ d ∧ d < ps + (off : Int) + ((dl + 1 : Nat) : Int) ∧
            d % 7 < 5 ∧ 540 ≤ x ∧ x ≤ 1019 := by
        intro q hq
        obtain ⟨j, aid, _, hqe⟩ := phase_day_placements_mem rng k pnum pname _ _ q hq
        obtain ⟨x, hx1, hx2, hx3, hx4, _⟩ :=
          escalation_placement_shape rng k pnum pname (ps + (off : Int)) j aid
        refine ⟨ps + (off : Int), x, by rw [hqe]; exact hx1, by rw [hqe]; exact hx4,
          le_refl _, by push_cast; omega, by omega, hx2, hx3⟩
      split at hp
      · exact hday p hp
      · rcases List.mem_append.mp hp with hp1 | hp2
        · exact hday p hp1
        · obtain ⟨d, x, h1, h2, h3, h4, h5, h6, h7⟩ := ih (off + 1) _ _ p hp2
          refine ⟨d, x, h1, h2, by push_cast at h3 ⊢; omega,
            by push_cast at h4 ⊢; omega, h5, h6, h7⟩

theorem phase_start_day_zero (phases : List Phase) (ps : Int) :
    phase_start_day phases ps 0 = ps := by
  simp [phase_start_day]

theorem phase_start_day_cons (ph : Phase) (rest : List Phase) (ps : Int) (m : Nat) :
    phase_start_day (ph :: rest) ps (m + 1) =
      phase_start_day rest (ps + 7 * ph.duration_weeks) m := by
  unfold phase_start_day
  rw [List.map_cons, List.take_succ_cons, List.sum_cons]
  ring

/-- Every placement of the phase loop belongs to some phase m: it carries
that phase's number as priority and lies on a weekday day number inside
phase m's chained day range, between 09:00 and 16:59. -/
theorem escalation_loop_mem (rng : Nat → Int) (app : Int → List Int) :
    ∀ (phases : List Phase) (ps : Int) (k : Nat),
      ∀ p ∈ (escalation_loop rng app phases ps k).1,
        ∃ m, ∃ hm : m < phases.length, ∃ d x,
          p.priority = (phases.get ⟨m, hm⟩).phase ∧
          p.scheduled_start = combine d x ∧
          phase_start_day phases ps m ≤ d ∧
          d < phase_start_day phases ps m +
            max 1 (7 * (phases.get ⟨m, hm⟩).duration_weeks) ∧
          d % 7 < 5 ∧ 540 ≤ x ∧ x ≤ 1019 := by
  intro phases
  induction phases with
  | nil =>
    intro ps k p hp
    exact absurd hp (List.not_mem_nil p)
  | cons ph rest ih =>
    intro ps k p hp
    unfold escalation_loop at hp
    by_cases hemp : (app ph.phase).isEmpty
    · rw [if_pos hemp] at hp
      obtain ⟨m, hm, d, x, h1, h2, h3, h4, h5, h6, h7⟩ :=
        ih (ps + 7 * ph.duration_weeks) k p hp
      refine ⟨m + 1, by simpa using Nat.succ_lt_succ hm, d, x, ?_, h2, ?_, ?_, h5, h6, h7⟩
      · simpa using h1
      · rw [phase_start_day_cons]; exact h3
      · rw [phase_start_day_cons]; simpa using h4
    · rw [if_neg hemp] at hp
      rcases List.mem_append.mp hp with hp1 | hp2
      · obtain ⟨d, x, h1, h2, h3, h4, h5, h6, h7⟩ :=
          phase_days_loop_mem rng ph.phase ph.name (app ph.phase) ps
            (max 1 ((app ph.phase).length / (max 1 (7 * ph.duration_weeks)).toNat))
            ((max 1 (7 * ph.duration_weeks)).toNat) 0 0 k p hp1
        have htoNat : (((max 1 (7 * ph.duration_weeks)).toNat : Nat) : Int) =
            max 1 (7 * ph.duration_weeks) :=
          Int.toNat_of_nonneg (le_trans (by omega) (le_max_left 1 (7 * ph.duration_weeks)))
        refine ⟨0, by simp, d, x, h2, h1, ?_, ?_, h5, h6, h7⟩
        · rw [phase_start_day_zero]
          simpa using h3
        · rw [phase_start_day_zero]
          rw [htoNat] at h4
          simpa using h4
      · obtain ⟨m, hm, d, x, h1, h2, h3, h4, h5, h6, h7⟩ :=
          ih (ps + 7 * ph.duration_weeks) _ p hp2
        refine ⟨m + 1, by simpa using Nat.succ_lt_succ hm, d, x, ?_, h2, ?_, ?_, h5, h6, h7⟩
        · simpa using h1
        · rw [phase_start_day_cons]; exact h3
        · rw [phase_start_day_cons]; simpa using h4

/-- Every placement the stagger loop emits starts on a non-weekend day:
its start is the weekend-adjusted cursor. -/
theorem email_loop_weekday (w : ScheduleWindow) (rmin rjit : Nat → Int)
    (e s : Int) (pers : Bool) :
    ∀ (ids : List Int) (i : Nat) (cd : Int) (dc : Nat) (ct : Int)
      (l : List (ScheduledAction Int)),
      email_loop w rmin rjit e s pers i cd dc ct ids = some l →
      ∀ p ∈ l, weekday p.scheduled_start < 5 := by
  intro ids
  induction ids with
  | nil =>
    intro i cd dc ct l h p hp
    cases h
    exact absurd hp (List.not_mem_nil p)
  | cons aid rest ih =>
    intro i cd dc ct l h p hp
    unfold email_loop at h
    by_cases hbreak : dateOf w.endTime < cd
    · rw [if_pos hbreak] at h
      cases h
      exact absurd hp (List.not_mem_nil p)
    · rw [if_neg hbreak] at h
      cases hsk : skip_weekend 2 ct with
      | none => rw [hsk] at h; exact Option.noConfusion h
      | some ct2 =>
        rw [hsk, Option.some_bind] at h
        by_cases he : e = 0
        · rw [if_pos he] at h; exact Option.noConfusion h
        · rw [if_neg he] at h
          obtain ⟨l2, hrec, hcons⟩ := Option.map_eq_some'.mp h
          rw [← hcons] at hp
          rcases List.mem_cons.mp hp with hp0 | hp1
          · rw [hp0]
            exact skip_weekend_valid 2 ct ct2 hsk
          · exact ih _ _ _ _ _ hrec p hp1

/-- Every placement the stagger loop emits starts at or after the window
start, provided the cursor and the lagging current_date dominate the
window start and the stagger interval is nonnegative. -/
theorem email_loop_lb (w : ScheduleWindow) (rmin rjit : Nat → Int)
    (e s : Int) (pers : Bool) (hs : 0 ≤ s) :
    ∀ (ids : List Int) (i : Nat) (cd : Int) (dc : Nat) (ct : Int)
      (l : List (ScheduledAction Int)),
      w.start ≤ ct → dateOf w.start ≤ cd →
      email_loop w rmin rjit e s pers i cd dc ct ids = some l →
      ∀ p ∈ l, w.start ≤ p.scheduled_start := by
  intro ids
  induction ids with
  | nil =>
    intro i cd dc ct l _ _ h p hp
    cases h
    exact absurd hp (List.not_mem_nil p)
  | cons aid rest ih =>
    intro i cd dc ct l hct hcd h p hp
    unfold email_loop at h
    by_cases hbreak : dateOf w.endTime < cd
    · rw [if_pos hbreak] at h
      cases h
      exact absurd hp (List.not_mem_nil p)
    · rw [if_neg hbreak] at h
      cases hsk : skip_weekend 2 ct with
      | none => rw [hsk] at h; exact Option.noConfusion h
      | some ct2 =>
        rw [hsk, Option.some_bind] at h
        have hct2 : w.start ≤ ct2 := le_trans hct (skip_weekend_le 2 ct ct2 hsk)
        have hnext : w.start ≤ (email_next rmin rjit e s i cd dc ct2).2.2 ∧
            dateOf w.start ≤ (email_next rmin rjit e s i cd dc ct2).1 := by
          have h1 := lt_combine_next_date w.start
          have h2 : 0 ≤ (rmin i) % 31 := by omega
          have h3 : 0 ≤ (rjit i) % 11 := by omega
          unfold email_next
          split_ifs with hc1 hc2
          · constructor
            · show w.start ≤ combine (cd + 1) (540 + (rmin i) % 31)
              unfold combine at *
              unfold dateOf at *
              omega
            · show dateOf w.start ≤ cd + 1
              omega
          · constructor
            · show w.start ≤ combine (cd + 1) (540 + (rmin i) % 31)
              unfold combine at *
              unfold dateOf at *
              omega
            · show dateOf w.start ≤ cd + 1
              omega
          · constructor
            · show w.start ≤ ct2 + s + (rjit i) % 11
              omega
            · exact hcd
        by_cases he : e = 0
        · rw [if_pos he] at h; exact Option.noConfusion h
        · rw [if_neg he] at h
          obtain ⟨l2, hrec, hcons⟩ := Option.map_eq_some'.mp h
          rw [← hcons] at hp
          rcases List.mem_cons.mp hp with hp0 | hp1
          · rw [hp0]
            exact hct2
          · exact ih _ _ _ _ _ hnext.1 hnext.2 hrec p hp1

theorem take_take_self {α : Type} (l : List α) (n : Nat) :
    l.take ((l.take n).length) = l.take n := by
  rw [List.length_take]
  by_cases h : n ≤ l.length
  · rw [Nat.min_eq_left h]
  · push_neg at h
    rw [Nat.min_eq_right (by omega), List.take_length,
      List.take_of_length_le (by omega)]

/-- The ids placed by the day loop form a prefix of the still-unplaced
suffix of the phase's action list. -/
theorem phase_days_loop_ids (rng : Nat → Int) (pnum : Int) (pname : String)
    (pa : List Int) (ps : Int) (apd : Nat) :
    ∀ dl off idx k,
      ((phase_days_loop rng pnum pname pa ps apd off dl idx k).1).map
          (fun p => p.action_id) =
        (pa.drop idx).take
          ((phase_days_loop rng pnum pname pa ps apd off dl idx k).1).length := by
  intro dl
  induction dl with
  | zero =>
    intro off idx k
    simp [phase_days_loop]
  | succ dl ih =>
    intro off idx k
    unfold phase_days_loop
    by_cases hwk : 5 ≤ (ps + (off : Int)) % 7
    · rw [if_pos hwk]
      exact ih (off + 1) idx k
    · rw [if_neg hwk]
      by_cases hbrk : pa.length ≤ idx + ((pa.drop idx).take apd).length
      · rw [if_pos hbrk]
        simp only []
        rw [phase_day_placements_ids, phase_day_placements_length]
        exact (take_take_self (pa.drop idx) apd).symm
      · rw [if_neg hbrk]
        simp only [List.map_append, List.length_append]
        rw [phase_day_placements_ids, phase_day_placements_length, ih]
        rw [List.take_add, take_take_self, List.drop_drop,
          Nat.add_comm idx ((pa.drop idx).take apd).length]

/-- Date of every placement of one phase day. -/
theorem phase_day_placements_date (rng : Nat → Int) (k : Nat) (pnum : Int)
    (pname : String) (d : Int) (daily : List Int) :
    ∀ p ∈ phase_day_placements rng k pnum pname d daily,
      dateOf p.scheduled_start = d := by
  intro p hp
  obtain ⟨j, aid, _, hpe⟩ := phase_day_placements_mem rng k pnum pname d daily p hp
  obtain ⟨x, hx1, hx2, hx3, _, _⟩ := escalation_placement_shape rng k pnum pname d j aid
  rw [hpe, hx1]
  exact dateOf_combine d x (by omega) (by omega)

/-- The day loop never schedules more than apd actions on any single
calendar date. -/
theorem phase_days_loop_cap (rng : Nat → Int) (pnum : Int) (pname : String)
    (pa : List Int) (ps : Int) (apd : Nat) :
    ∀ dl off idx k (d : Int),
      (((phase_days_loop rng pnum pname pa ps apd off dl idx k).1).filter
        (fun p => dateOf p.scheduled_start == d)).length ≤ apd := by
  intro dl
  induction dl with
  | zero =>
    intro off idx k d
    simp [phase_days_loop]
  | succ dl ih =>
    intro off idx k d
    unfold phase_days_loop
    by_cases hwk : 5 ≤ (ps + (off : Int)) % 7
    · rw [if_pos hwk]
      exact ih (off + 1) idx k d
    · rw [if_neg hwk]
      by_cases hbrk : pa.length ≤ idx + ((pa.drop idx).take apd).length
      · rw [if_pos hbrk]
        simp only []
        calc (((phase_day_placements rng k pnum pname (ps + (off : Int))
                ((pa.drop idx).take apd)).filter
              (fun p => dateOf p.scheduled_start == d)).length)
            ≤ (phase_day_placements rng k pnum pname (ps + (off : Int))
                ((pa.drop idx).take apd)).length := List.length_filter_le _ _
          _ = ((pa.drop idx).take apd).length := phase_day_placements_length _ _ _ _ _ _
          _ ≤ apd := by rw [List.length_take]; omega
      · rw [if_neg hbrk]
        simp only [List.filter_append, List.length_append]
        by_cases hd : d = ps + (off : Int)
        · have hrest0 : (((phase_days_loop rng pnum pname pa ps apd (off + 1) dl
              (idx + ((pa.drop idx).take apd).length)
              (k + ((pa.drop idx).take apd).length)).1).filter
                (fun p => dateOf p.scheduled_start == d)).length = 0 := by
            rw [List.length_eq_zero, List.filter_eq_nil_iff]
            intro p hp
            obtain ⟨d', x, h1, _, h3, _, _, h6, h7⟩ :=
              phase_days_loop_mem rng pnum pname pa ps apd dl (off + 1) _ _ p hp
            have hdd : dateOf p.scheduled_start = d' := by
              rw [h1]; exact dateOf_combine d' x (by omega) (by omega)
            simp only [beq_iff_eq, hdd]
            push_cast at h3
            omega
          rw [hrest0]
          calc (((phase_day_placements rng k pnum pname (ps + (off : Int))
                  ((pa.drop idx).take apd)).filter
                (fun p => dateOf p.scheduled_start == d)).length) + 0
              ≤ (phase_day_placements rng k pnum pname (ps + (off : Int))
                  ((pa.drop idx).take apd)).length := by
                have := List.length_filter_le
                  (fun p : ScheduledAction Int => dateOf p.scheduled_start == d)
                  (phase_day_placements rng k pnum pname (ps + (off : Int))
                    ((pa.drop idx).take apd))
                omega
            _ = ((pa.drop idx).take apd).length := phase_day_placements_length _ _ _ _ _ _
            _ ≤ apd := by rw [List.length_take]; omega
        · have hday0 : ((phase_day_placements rng k pnum pname (ps + (off : Int))
              ((pa.drop idx).take apd)).filter
                (fun p => dateOf p.scheduled_start == d)).length = 0 := by
            rw [List.length_eq_zero, List.filter_eq_nil_iff]
            intro p hp
            have := phase_day_placements_date rng k pnum pname (ps + (off : Int))
              ((pa.drop idx).take apd) p hp
            simp only [beq_iff_eq, this]
            omega
          rw [hday0]
          have := ih (off + 1) (idx + ((pa.drop idx).take apd).length)
            (k + ((pa.drop idx).take apd).length) d
          omega

/-- C4, confirmed: no placement of schedule_email_campaign (StaggerStrategy)
or of schedule_escalation_sequence (PhaseSequencer day-distribution) starts
on a Saturday or Sunday (weekday >= 5, Monday = 0). -/
theorem claim_C4 :
    (∀ (rmin rjit : Nat → Int) (action_ids : List Int) (w : ScheduleWindow)
        (e s : Int) (pers : Bool) (l : List (ScheduledAction Int)),
        schedule_email_campaign rmin rjit action_ids w e s pers = some l →
        ∀ p ∈ l, weekday p.scheduled_start < 5) ∧
    (∀ (rng : Nat → Int) (phases : List Phase) (campaign_start : Int)
        (app : Int → List Int),
        ∀ p ∈ schedule_escalation_sequence rng phases campaign_start app,
          weekday p.scheduled_start < 5) := by
  constructor
  · intro rmin rjit action_ids w e s pers l h p hp
    unfold schedule_email_campaign at h
    cases hnb : next_business_hour w 3 w.start with
    | none => rw [hnb] at h; exact Option.noConfusion h
    | some t0 =>
      rw [hnb] at h
      exact email_loop_weekday w rmin rjit e s pers action_ids 0 (dateOf w.start)
        0 t0 l h p hp
  · intro rng phases campaign_start app p hp
    obtain ⟨m, hm, d, x, _, h2, _, _, h5, h6, h7⟩ :=
      escalation_loop_mem rng app phases campaign_start 0 p hp
    rw [h2, weekday_combine d x (by omega) (by omega)]
    exact h5

/-- Witness for claim_C4 at a concrete one-action stagger campaign. -/
theorem claim_C4_witness :
    (schedule_email_campaign (fun _ => 0) (fun _ => 0) [5]
        { start := 540, endTime := 10080 } 20 15 true =
      some [email_placement 0 0 20 true 540 5]) ∧
    (∀ p ∈ [email_placement 0 0 20 true 540 5], weekday p.scheduled_start < 5) :=
  ⟨rfl, claim_C4.1 (fun _ => 0) (fun _ => 0) [5] { start := 540, endTime := 10080 }
    20 15 true [email_placement 0 0 20 true 540 5] rfl⟩

/-- C3, amended: every PhaseSequencer placement lies inside its phase's
window (combine(phaseStart, 09:00) to combine(phaseEnd, 17:00)) whenever
phase durations are nonnegative, and every StaggerStrategy placement
satisfies window.start <= scheduledStart when intervalMinutes >= 0; the
stagger upper bound window.end is NOT kept: placements can land on
calendar dates strictly after the window's end date
(claim_C3_counterexample), beyond the final-day-overrun relaxation the
original claim permits. -/
theorem claim_C3 :
    (∀ (rmin rjit : Nat → Int) (action_ids : List Int) (w : ScheduleWindow)
        (e s : Int) (pers : Bool) (l : List (ScheduledAction Int)),
        0 ≤ s →
        schedule_email_campaign rmin rjit action_ids w e s pers = some l →
        ∀ p ∈ l, w.start ≤ p.scheduled_start) ∧
    (∀ (rng : Nat → Int) (phases : List Phase) (campaign_start : Int)
        (app : Int → List Int),
        (∀ ph ∈ phases, 0 ≤ ph.duration_weeks) →
        ∀ p ∈ schedule_escalation_sequence rng phases campaign_start app,
          ∃ m, ∃ hm : m < phases.length,
            combine (phase_start_day phases campaign_start m) 540 ≤
              p.scheduled_start ∧
            p.scheduled_start ≤ combine (phase_start_day phases campaign_start m +
              7 * (phases.get ⟨m, hm⟩).duration_weeks) 1020) := by
  constructor
  · intro rmin rjit action_ids w e s pers l hs h p hp
    unfold schedule_email_campaign at h
    cases hnb : next_business_hour w 3 w.start with
    | none => rw [hnb] at h; exact Option.noConfusion h
    | some t0 =>
      rw [hnb] at h
      exact email_loop_lb w rmin rjit e s pers hs action_ids 0 (dateOf w.start)
        0 t0 l (next_business_hour_le w 3 w.start t0 hnb) (le_refl _) h p hp
  · intro rng phases campaign_start app hdur p hp
    obtain ⟨m, hm, d, x, _, h2, h3, h4, h5, h6, h7⟩ :=
      escalation_loop_mem rng app phases campaign_start 0 p hp
    have hd0 : 0 ≤ (phases.get ⟨m, hm⟩).duration_weeks :=
      hdur _ (List.get_mem phases m hm)
    refine ⟨m, hm, ?_, ?_⟩
    · rw [h2]
      unfold combine
      omega
    · rw [h2]
      unfold combine
      omega

/-- C3 counterexample: a window lying entirely on a Saturday. The stagger
loop's date check uses a lagging current_date, so the single placement is
emitted on the following Monday: a calendar date strictly after the
window's end date, and an instant after window.end itself. -/
theorem claim_C3_counterexample :
    ((schedule_email_campaign (fun _ => 0) (fun _ => 0) [1]
        { start := 5 * 1440 + 600, endTime := 5 * 1440 + 1200 } 20 15
        true).getD []).map
      (fun p => (decide (dateOf (5 * 1440 + 1200 : Int) < dateOf p.scheduled_start),
        decide ((5 * 1440 + 1200 : Int) < p.scheduled_start))) = [(true, true)] := by
  rfl

/-- Witness for claim_C3 at a concrete one-action stagger campaign and a
concrete one-phase escalation. -/
theorem claim_C3_witness :
    ((0 : Int) ≤ 15) ∧
    (schedule_email_campaign (fun _ => 0) (fun _ => 0) [5]
        { start := 540, endTime := 10080 } 20 15 true =
      some [email_placement 0 0 20 true 540 5]) ∧
    (∀ p ∈ [email_placement 0 0 20 true 540 5],
      ({ start := 540, endTime := 10080 } : ScheduleWindow).start ≤
        p.scheduled_start) :=
  ⟨by decide, rfl,
    claim_C3.1 (fun _ => 0) (fun _ => 0) [5] { start := 540, endTime := 10080 }
      20 15 true [email_placement 0 0 20 true 540 5] (by decide) rfl⟩

theorem phase_start_day_succ (phases : List Phase) (cs : Int) (m : Nat)
    (hm : m < phases.length) :
    phase_start_day phases cs (m + 1) =
      phase_start_day phases cs m + 7 * (phases.get ⟨m, hm⟩).duration_weeks := by
  unfold phase_start_day
  rw [List.sum_take_succ _ m (by simpa using hm)]
  simp only [List.getElem_map, List.get_eq_getElem]
  ring

theorem phase_start_day_mono (phases : List Phase) (cs : Int)
    (hdur : ∀ ph ∈ phases, 0 ≤ ph.duration_weeks) (a b : Nat) (hab : a ≤ b) :
    phase_start_day phases cs a ≤ phase_start_day phases cs b := by
  unfold phase_start_day
  have hsplit : (phases.map (fun ph => ph.duration_weeks)).take b =
      (phases.map (fun ph => ph.duration_weeks)).take a ++
      ((phases.map (fun ph => ph.duration_weeks)).drop a).take (b - a) := by
    rw [← List.take_add]
    congr 1
    omega
  rw [hsplit, List.sum_append]
  have hnn : 0 ≤ (((phases.map (fun ph => ph.duration_weeks)).drop a).take (b - a)).sum := by
    apply List.sum_nonneg
    intro x hx
    have hx2 : x ∈ phases.map (fun ph => ph.duration_weeks) :=
      List.drop_subset _ _ (List.take_subset _ _ hx)
    obtain ⟨ph, hph, hphe⟩ := List.mem_map.mp hx2
    rw [← hphe]
    exact hdur ph hph
  omega

theorem pairwise_phase_get_inj (phases : List Phase)
    (hsort : phases.Pairwise (fun a b => a.phase < b.phase))
    (m i : Nat) (hm : m < phases.length) (hi : i < phases.length)
    (heq : (phases.get ⟨m, hm⟩).phase = (phases.get ⟨i, hi⟩).phase) : m = i := by
  rcases Nat.lt_trichotomy m i with h | h | h
  · have := List.pairwise_iff_get.mp hsort ⟨m, hm⟩ ⟨i, hi⟩ (Fin.mk_lt_mk.mpr h)
    omega
  · exact h
  · have := List.pairwise_iff_get.mp hsort ⟨i, hi⟩ ⟨m, hm⟩ (Fin.mk_lt_mk.mpr h)
    omega

/-- C6, amended: for phases with strictly ascending phase numbers and
durations of at least one week, any placement of an earlier phase starts
no later than any placement of a later phase (placements are identified
with their phase through the priority field, which
schedule_escalation_sequence sets to the phase number). With a
zero-duration phase the property fails (claim_C6_counterexample): the
next phase starts the same day. -/
theorem claim_C6 (rng : Nat → Int) (phases : List Phase) (campaign_start : Int)
    (app : Int → List Int)
    (hsort : phases.Pairwise (fun a b => a.phase < b.phase))
    (hdur : ∀ ph ∈ phases, 1 ≤ ph.duration_weeks)
    (i j : Nat) (hi : i < phases.length) (hj : j < phases.length) (hij : i < j)
    (p q : ScheduledAction Int)
    (hp : p ∈ schedule_escalation_sequence rng phases campaign_start app)
    (hq : q ∈ schedule_escalation_sequence rng phases campaign_start app)
    (hpi : p.priority = (phases.get ⟨i, hi⟩).phase)
    (hqj : q.priority = (phases.get ⟨j, hj⟩).phase) :
    p.scheduled_start ≤ q.scheduled_start := by
  obtain ⟨m, hm, d, x, e1, e2, e3, e4, e5, e6, e7⟩ :=
    escalation_loop_mem rng app phases campaign_start 0 p hp
  obtain ⟨m', hm', d', x', f1, f2, f3, f4, f5, f6, f7⟩ :=
    escalation_loop_mem rng app phases campaign_start 0 q hq
  have hmi : m = i := pairwise_phase_get_inj phases hsort m i hm hi (by rw [← e1, hpi])
  have hmj : m' = j := pairwise_phase_get_inj phases hsort m' j hm' hj (by rw [← f1, hqj])
  subst hmi
  subst hmj
  have hdi : 1 ≤ (phases.get ⟨m, hm⟩).duration_weeks :=
    hdur _ (List.get_mem phases m hm)
  have hmax : max 1 (7 * (phases.get ⟨m, hm⟩).duration_weeks) =
      7 * (phases.get ⟨m, hm⟩).duration_weeks := max_eq_right (by omega)
  have hsucc := phase_start_day_succ phases campaign_start m hm
  have hmono := phase_start_day_mono phases campaign_start
    (fun ph hph => le_trans (by omega) (hdur ph hph)) (m + 1) m' (by omega)
  have hdlt : d < phase_start_day phases campaign_start m' := by
    rw [hmax] at e4
    omega
  rw [e2, f2]
  unfold combine
  omega

/-- A random stream drawing 30 on its first randint(0, 59) call and 0
afterwards. -/
def rng01 : Nat → Int := fun n => if n = 0 then 30 else 0

/-- C6 counterexample: with a zero-duration first phase, phase 2 begins on
the very day phase 1 is placed, so the phase-1 placement (09:30) comes
after the phase-2 placement (09:00) even though both phases have an
action; the claim quantified over every phase list is therefore false. -/
theorem claim_C6_counterexample :
    (schedule_escalation_sequence rng01 [⟨1, "a", 0⟩, ⟨2, "b", 1⟩] 0
        (fun n => if n = 1 then [10] else [20])).map
      (fun p => (p.priority, p.scheduled_start)) = [(1, 570), (2, 540)] ∧
    ¬((570 : Int) ≤ 540) := by
  exact ⟨rfl, by decide⟩

/-- Witness for claim_C6 at a concrete two-phase escalation. -/
theorem claim_C6_witness :
    (([⟨1, "a", 1⟩, ⟨2, "b", 1⟩] : List Phase).Pairwise
      (fun a b => a.phase < b.phase)) ∧
    (∀ ph ∈ ([⟨1, "a", 1⟩, ⟨2, "b", 1⟩] : List Phase), 1 ≤ ph.duration_weeks) ∧
    ((0 : Nat) < 2) ∧ ((1 : Nat) < 2) ∧ ((0 : Nat) < 1) ∧
    (escalation_placement (fun _ => 0) 0 1 "a" 0 0 10 ∈
      schedule_escalation_sequence (fun _ => 0) [⟨1, "a", 1⟩, ⟨2, "b", 1⟩] 0
        (fun n => if n = 1 then [10] else [20])) ∧
    (escalation_placement (fun _ => 0) 1 2 "b" 7 0 20 ∈
      schedule_escalation_sequence (fun _ => 0) [⟨1, "a", 1⟩, ⟨2, "b", 1⟩] 0
        (fun n => if n = 1 then [10] else [20])) ∧
    ((escalation_placement (fun _ => 0) 0 1 "a" 0 0 10).priority = 1) ∧
    ((escalation_placement (fun _ => 0) 1 2 "b" 7 0 20).priority = 2) ∧
    ((escalation_placement (fun _ => 0) 0 1 "a" 0 0 10).scheduled_start ≤
      (escalation_placement (fun _ => 0) 1 2 "b" 7 0 20).scheduled_start) :=
  ⟨by decide, by decide, by decide, by decide, by decide, by decide, by decide,
    by decide, by decide,
    claim_C6 (fun _ => 0) [⟨1, "a", 1⟩, ⟨2, "b", 1⟩] 0
      (fun n => if n = 1 then [10] else [20]) (by decide) (by decide)
      0 1 (by decide) (by decide) (by decide)
      (escalation_placement (fun _ => 0) 0 1 "a" 0 0 10)
      (escalation_placement (fun _ => 0) 1 2 "b" 7 0 20)
      (by decide) (by decide) (by decide) (by decide)⟩

/-- C7 (code bug evidence): on a window whose start (Monday 15:00) is after
its end (Monday 10:00 the same day), schedule_email_campaign does not
fail with an InvalidWindow error: it returns a placement, and that
placement starts after window.end. -/
theorem claim_C7 :
    (schedule_email_campaign (fun _ => 0) (fun _ => 0) [1]
        { start := 900, endTime := 600 } 20 15 true =
      some [email_placement 0 0 20 true 900 1]) ∧
    (({ start := 900, endTime := 600 } : ScheduleWindow).endTime <
      ({ start := 900, endTime := 600 } : ScheduleWindow).start) ∧
    (({ start := 900, endTime := 600 } : ScheduleWindow).endTime <
      (email_placement 0 0 20 true 900 1).scheduled_start) := by
  exact ⟨rfl, by decide, by decide⟩

/-- C8 (code bug evidence): schedule_comment_period with
rampWindowDays = 0 returns placements (no InvalidParameter error), one of
which is scheduled at or after the deadline; and schedule_email_campaign
with intervalMinutes = -100 also returns placements instead of failing
fast. -/
theorem claim_C8 :
    ((schedule_comment_period (fun _ => 9) [1, 2, 3] 0 0).isSome = true) ∧
    ((((schedule_comment_period (fun _ => 9) [1, 2, 3] 0 0).getD []).filter
        (fun p => decide ((0 : Int) ≤ p.scheduled_start))).length = 1) ∧
    ((schedule_email_campaign (fun _ => 0) (fun _ => 0) [1, 2]
        { start := 540, endTime := 10080 } 20 (-100) true).isSome = true) := by
  exact ⟨rfl, rfl, rfl⟩

/-- C10, confirmed: within a single phase, the placed action ids are
exactly a prefix of the phase's assigned list, no calendar date receives
more than max(1, count // calendarDaysInPhase) placements, and the
concrete six-action one-week phase starting on a Monday places only five
actions (its five business days at one per day), strictly fewer than
assigned. -/
theorem claim_C10 :
    (∀ (rng : Nat → Int) (ph : Phase) (campaign_start : Int) (pa : List Int),
      ((schedule_escalation_sequence rng [ph] campaign_start (fun _ => pa)).map
          (fun p => p.action_id) =
        pa.take
          (schedule_escalation_sequence rng [ph] campaign_start
            (fun _ => pa)).length) ∧
      (∀ d : Int,
        ((schedule_escalation_sequence rng [ph] campaign_start
            (fun _ => pa)).filter
            (fun p => dateOf p.scheduled_start == d)).length ≤
          max 1 (pa.length / (max 1 (7 * ph.duration_weeks)).toNat))) ∧
    ((schedule_escalation_sequence (fun _ => 0) [⟨1, "direct", 1⟩] 0
        (fun _ => [1, 2, 3, 4, 5, 6])).length = 5 ∧
      5 < ([1, 2, 3, 4, 5, 6] : List Int).length) := by
  constructor
  · intro rng ph campaign_start pa
    by_cases hemp : pa.isEmpty
    · have hpa : pa = [] := List.isEmpty_iff.mp hemp
      subst hpa
      have hout : schedule_escalation_sequence rng [ph] campaign_start
          (fun _ => ([] : List Int)) = [] := rfl
      rw [hout]
      exact ⟨rfl, fun d => by simp⟩
    · have hout : schedule_escalation_sequence rng [ph] campaign_start
          (fun _ => pa) =
          (phase_days_loop rng ph.phase ph.name pa campaign_start
            (max 1 (pa.length / (max 1 (7 * ph.duration_weeks)).toNat))
            0 (max 1 (7 * ph.duration_weeks)).toNat 0 0).1 := by
        show (escalation_loop rng (fun _ => pa) [ph] campaign_start 0).1 = _
        unfold escalation_loop
        rw [if_neg hemp]
        exact List.append_nil _
      rw [hout]
      constructor
      · have := phase_days_loop_ids rng ph.phase ph.name pa campaign_start
          (max 1 (pa.length / (max 1 (7 * ph.duration_weeks)).toNat))
          ((max 1 (7 * ph.duration_weeks)).toNat) 0 0 0
        simpa using this
      · intro d
        exact phase_days_loop_cap rng ph.phase ph.name pa campaign_start
          (max 1 (pa.length / (max 1 (7 * ph.duration_weeks)).toNat))
          ((max 1 (7 * ph.duration_weeks)).toNat) 0 0 0 d
  · exact ⟨rfl, by decide⟩

end CampaignPlatform
